import Mathlib

/-!
Verification development for the `tool_builder` webui utility layer.

The two source modules under verification are `src/webui/src/utils/rag.ts`
(an in-memory document store with a hash-based placeholder embedding) and
`src/webui/src/utils/fileUtils.ts` (file classification and transcoding).

Modelling conventions:
- JavaScript strings are modelled as Lean `String` / `List Char`; `charCodeAt`
  is modelled as `Char.toNat` (exact for all code points below 0x10000).
- JavaScript number arithmetic on 32-bit paths (`<<`, `& 0xffffffff`) is
  modelled with `Int` plus an explicit wrap into the signed 32-bit range.
- Floating-point arithmetic (embedding normalisation, cosine similarity) is
  modelled over the real numbers; `Math.sqrt` becomes `Real.sqrt`.
- `Date.now()` and the random id suffix are modelled as explicit parameters
  (`now`, `id`) of the insertion operation.
- Asynchronous file reads are modelled by an oracle record holding the
  `Except`-valued outcomes of the two possible reads.
-/

namespace Rag

/-- JavaScript `ToInt32`: wrap an integer into the signed 32-bit range,
as performed by `& 0xffffffff` and `<<` in `generateSimpleEmbedding`. -/
def toInt32 (x : Int) : Int := (x + 2 ^ 31) % 2 ^ 32 - 2 ^ 31

/-- One step of the rolling hash in `generateSimpleEmbedding`
(`rag.ts` line 83): `hash = ((hash << 5) - hash + charCode) & 0xffffffff`.
`hash << 5` coerces to int32 and shifts, dropping overflow. -/
def codeHashStep (h : Int) (c : Nat) : Int :=
  toInt32 (toInt32 (h * 32) - h + (c : Int))

/-- The rolling hash of `generateSimpleEmbedding` over a token's char codes. -/
def codeHash (codes : List Nat) : Int := codes.foldl codeHashStep 0

/-- Modelled from the spec: one step of the reference hash,
`hash = (hash * 31 + charCode) mod 2^32` with signed 32-bit wraparound. -/
def specHashStep (h : Int) (c : Nat) : Int := toInt32 (h * 31 + (c : Int))

/-- Modelled from the spec: the reference rolling hash over char codes. -/
def specHash (codes : List Nat) : Int := codes.foldl specHashStep 0

/-- Bucket index of a token in the code: `Math.abs(hash) % embedding.length`
with `embedding.length = 100` (`rag.ts` line 85). -/
def bucketOfCodes (codes : List Nat) : Nat := (codeHash codes).natAbs % 100

/-- Modelled from the spec: `abs(hash) mod dimensionality` with the
reference hash, dimensionality 100. -/
def specBucketOfCodes (codes : List Nat) : Nat := (specHash codes).natAbs % 100

/-- JavaScript `str.split(/\s+/)` on a character list, processed char by
char; the flag records whether the previous character was part of a
whitespace run (so that a run contributes a single separator). -/
def jsSplitWsF : Bool → List Char → List (List Char)
  | _, [] => [[]]
  | inSep, c :: cs =>
    if c.isWhitespace then
      if inSep then jsSplitWsF true cs
      else [] :: jsSplitWsF true cs
    else
      match jsSplitWsF false cs with
      | [] => [[c]]
      | t :: ts => (c :: t) :: ts

/-- JavaScript `str.split(/\s+/)`: maximal whitespace runs are separators;
a leading or trailing separator contributes an empty field, and the empty
string yields a single empty field. -/
def jsSplitWs (cs : List Char) : List (List Char) := jsSplitWsF false cs

/-- Model of `text.toLowerCase().split(/\s+/)` of `generateSimpleEmbedding`
(`rag.ts` line 78), as a list of tokens. -/
def tokenize (text : String) : List (List Char) :=
  jsSplitWs (text.data.map Char.toLower)

/-- Bucket index of one token (`rag.ts` lines 81-85). -/
def bucketOf (word : List Char) : Nat := bucketOfCodes (word.map Char.toNat)

/-- Model of `embedding[index] += 1` on the count vector. -/
def incAt (v : List Nat) (i : Nat) : List Nat := v.set i (v.getD i 0 + 1)

/-- The integer count vector accumulated by the loop of
`generateSimpleEmbedding` before normalisation: a zero vector of length 100
with one increment per token at its hash bucket. -/
def rawEmbedding (text : String) : List Nat :=
  (tokenize text).foldl (fun v w => incAt v (bucketOf w)) (List.replicate 100 0)

/-- Model of `embedding.reduce((sum, val) => sum + val * val, 0)` over the reals
(`rag.ts` line 90, also the loop of `cosineSimilarity`). -/
def sumSq (l : List ℝ) : ℝ := l.foldl (fun s v => s + v * v) 0

/-- Natural-number sum of squares of the count vector (used to transfer
facts about `rawEmbedding` into the real-valued computation). -/
def sumSqNat (l : List Nat) : Nat := l.foldl (fun s v => s + v * v) 0

/-- Model of `generateSimpleEmbedding` (`rag.ts` lines 76-98): hash-bucket counts,
then L2 normalisation whenever the magnitude is positive. -/
noncomputable def generateSimpleEmbedding (text : String) : List ℝ :=
  let e : List ℝ := (rawEmbedding text).map (fun (n : ℕ) => (n : ℝ))
  let magnitude : ℝ := Real.sqrt (sumSq e)
  if 0 < magnitude then e.map (fun v => v / magnitude) else e

/-- Model of `cosineSimilarity` (`rag.ts` lines 103-117): zero on dimension mismatch,
dot product over the product of norms when both norms are positive. -/
noncomputable def cosineSimilarity (a b : List ℝ) : ℝ :=
  if a.length ≠ b.length then 0
  else
    let dotProduct : ℝ := (a.zip b).foldl (fun s p => s + p.1 * p.2) 0
    let normA : ℝ := sumSq a
    let normB : ℝ := sumSq b
    if 0 < normA * normB then dotProduct / (Real.sqrt normA * Real.sqrt normB) else 0

/-- Model of `calculateSimpleSimilarity` (`rag.ts` lines 57-70): fraction of query
tokens present in the document's token set. -/
noncomputable def calculateSimpleSimilarity (query document : String) : ℝ :=
  let queryTerms := tokenize query
  let docTerms := tokenize document
  let matchCount := (queryTerms.filter (fun t => docTerms.contains t)).length
  if 0 < queryTerms.length then (matchCount : ℝ) / (queryTerms.length : ℝ) else 0

/-- The optional `metadata` record of a `Document` (`rag.ts` lines 11-16). -/
structure Metadata where
  source : Option String := none
  type : Option String := none
  timestamp : Option Nat := none
  size : Option Nat := none
deriving DecidableEq

/-- Model of `Document` (`rag.ts` lines 6-17). -/
structure Document where
  id : String
  title : String
  content : String
  embedding : Option (List ℝ) := none
  metadata : Option Metadata := none

/-- Model of `RAGConfig` (`rag.ts` lines 19-25). -/
structure RAGConfig where
  maxDocuments : Nat
  chunkSize : Nat
  chunkOverlap : Nat
  similarityThreshold : ℝ
  maxRetrievedDocs : Nat

/-- Model of `DEFAULT_RAG_CONFIG` (`rag.ts` lines 27-33). -/
noncomputable def DEFAULT_RAG_CONFIG : RAGConfig :=
  { maxDocuments := 1000, chunkSize := 1000, chunkOverlap := 200,
    similarityThreshold := 1 / 2, maxRetrievedDocs := 5 }

/-- Model of `RAGStore` state: the backing `Map<string, Document>` as an
insertion-ordered association list, plus the immutable config. -/
structure RAGStore where
  documents : List (String × Document)
  config : RAGConfig

/-- A `RAGStore` as freshly constructed: no documents. -/
def emptyStore (config : RAGConfig) : RAGStore := { documents := [], config }

/-- JavaScript `Map.set`: replace the value of an existing key in place,
otherwise append the new binding at the end of the iteration order. -/
def mapSet (m : List (String × Document)) (k : String) (v : Document) :
    List (String × Document) :=
  if m.any (fun p => p.1 == k) then
    m.map (fun p => if p.1 == k then (k, v) else p)
  else m ++ [(k, v)]

/-- JavaScript `Map.get`, as used to observe a stored document. -/
def mapLookup (m : List (String × Document)) (k : String) : Option Document :=
  (m.find? (fun p => p.1 == k)).map Prod.snd

/-- The sort key `doc.metadata?.timestamp || 0` of the eviction sort
(`rag.ts` line 159). -/
def tsKey (d : Document) : Nat := (d.metadata.bind Metadata.timestamp).getD 0

/-- Eviction step of `addDocument` (`rag.ts` lines 158-160): sort the
entries by timestamp ascending (JavaScript `sort` is stable) and delete the
key of the first entry. -/
def evictOldest (m : List (String × Document)) : List (String × Document) :=
  match m.mergeSort (fun a b => tsKey a.2 ≤ tsKey b.2) with
  | [] => m
  | p :: _ => m.eraseP (fun q => q.1 == p.1)

/-- The document built by `addDocument` (`rag.ts` lines 143-152): caller
metadata is spread first, then `timestamp` and `size` are store-assigned. -/
noncomputable def mkDocument (title content : String) (md : Option Metadata)
    (id : String) (now : Nat) : Document :=
  { id, title, content,
    embedding := some (generateSimpleEmbedding content),
    metadata := some
      { source := md.bind Metadata.source, type := md.bind Metadata.type,
        timestamp := some now, size := some content.length } }

/-- Model of `addDocument` (`rag.ts` lines 133-164). `id` models the generated
unique id and `now` models `Date.now()`. -/
noncomputable def addDocument (s : RAGStore) (title content : String)
    (md : Option Metadata) (id : String) (now : Nat) : RAGStore :=
  let docs := mapSet s.documents id (mkDocument title content md id now)
  let docs' := if s.config.maxDocuments < docs.length then evictOldest docs else docs
  { s with documents := docs' }

/-- The score `searchDocuments` assigns to one stored document
(`rag.ts` lines 190-198). -/
noncomputable def scoreDoc (query : String) (queryEmbedding : List ℝ)
    (d : Document) : ℝ :=
  match d.embedding with
  | some e => cosineSimilarity queryEmbedding e
  | none => calculateSimpleSimilarity query d.content

/-- Model of `searchDocuments` (`rag.ts` lines 183-210). The guard `!query.trim()`
is the test that every character is whitespace. -/
noncomputable def searchDocuments (s : RAGStore) (query : String) : List Document :=
  if query.data.all Char.isWhitespace then []
  else
    let queryEmbedding := generateSimpleEmbedding query
    let results := s.documents.filterMap (fun p =>
      let score := scoreDoc query queryEmbedding p.2
      if s.config.similarityThreshold ≤ score then some (p.2, score) else none)
    ((results.mergeSort (fun a b => b.2 ≤ a.2)).take s.config.maxRetrievedDocs).map
      Prod.fst

/-- JavaScript `Array.join(sep)`. -/
def joinSep (sep : String) : List String → String
  | [] => ""
  | [a] => a
  | a :: b :: rest => a ++ sep ++ joinSep sep (b :: rest)

/-- Model of `generateContext` (`rag.ts` lines 215-223). -/
def generateContext (documents : List Document) : String :=
  if documents.length = 0 then ""
  else
    let context := joinSep "\n\n---\n\n"
      (documents.enum.map (fun p =>
        "Document " ++ toString (p.1 + 1) ++ " (" ++ p.2.title ++ "):\n" ++ p.2.content))
    "Context from " ++ toString documents.length ++ " relevant document(s):\n\n" ++ context

/-- JavaScript `String.slice(a, b)`: negative indices count from the end,
both indices are clamped to `[0, length]`. -/
def jsSlice (cs : List Char) (a b : Int) : List Char :=
  let len : Int := cs.length
  let a' : Int := if a < 0 then max (len + a) 0 else min a len
  let b' : Int := if b < 0 then max (len + b) 0 else min b len
  (cs.take b'.toNat).drop a'.toNat

/-- The `while` loop of `chunkText` (`rag.ts` lines 42-48), step-indexed by
fuel; `none` means the fuel ran out before the loop exited. `start` is an
`Int` because `end - overlap` may go negative in JavaScript. -/
def chunkTextFuel : Nat → List Char → Int → Int → Int → List (List Char) →
    Option (List (List Char))
  | 0, _, _, _, _, _ => none
  | fuel + 1, text, start, chunkSize, overlap, chunks =>
    if start < (text.length : Int) then
      let e : Int := min (start + chunkSize) (text.length : Int)
      let chunks' := chunks ++ [jsSlice text start e]
      if e = (text.length : Int) then some chunks'
      else chunkTextFuel fuel text (e - overlap) chunkSize overlap chunks'
    else some chunks

/-- Model of `chunkText` (`rag.ts` lines 38-51) with fuel `text.length + 1`, which
suffices whenever the loop terminates at all. -/
def chunkText (text : String) (chunkSize overlap : Int) : Option (List String) :=
  (chunkTextFuel (text.length + 1) text.data 0 chunkSize overlap []).map
    (List.map (fun l => String.mk l))

/-- Modelled from the spec's words for C6: one numbered block,
`"Document i (<title>):"` followed by the document's full content. -/
def claimBlock (i : Nat) (d : Document) : String :=
  "Document " ++ toString i ++ " (" ++ d.title ++ "):\n" ++ d.content

/-- Modelled from the spec's words for C6: the blocks for a document list,
numbered from `i`, with consecutive blocks separated by a line containing
exactly `---` (blank lines around it). -/
def claimBody : Nat → List Document → String
  | _, [] => ""
  | i, [d] => claimBlock i d
  | i, d :: d' :: rest => claimBlock i d ++ "\n\n---\n\n" ++ claimBody (i + 1) (d' :: rest)

/-- One `addDocument` request: caller-visible arguments plus the
store-generated id and `Date.now()` value of that call. -/
structure InsertReq where
  title : String
  content : String
  metadata : Option Metadata
  id : String
  now : Nat

/-- Apply one insertion request to a store. -/
noncomputable def applyInsert (s : RAGStore) (r : InsertReq) : RAGStore :=
  addDocument s r.title r.content r.metadata r.id r.now

/-- Apply a sequence of insertion requests in order. -/
noncomputable def insertAll (s : RAGStore) (reqs : List InsertReq) : RAGStore :=
  reqs.foldl applyInsert s

end Rag

namespace FileUtils

/-- Model of `MAX_FILE_SIZE` (`fileUtils.ts` line 6). -/
def MAX_FILE_SIZE : Nat := 10 * 1024 * 1024

/-- Model of `TEXT_FILE_PATTERNS` (`fileUtils.ts` lines 11-19) as a predicate:
`/^text\//` is a literal-prefix test and the three `application` patterns
are exact alternations anchored on both sides. -/
def isTextMimeType (mimeType : String) : Bool :=
  List.isPrefixOf "text/".data mimeType.data ||
  ["application/javascript", "application/json", "application/xml",
    "application/yaml"].contains mimeType ||
  ["application/x-python", "application/x-java", "application/x-c",
    "application/x-cpp", "application/x-csharp", "application/x-php",
    "application/x-ruby", "application/x-perl", "application/x-shell",
    "application/x-sh"].contains mimeType ||
  ["application/toml", "application/ini"].contains mimeType

/-- JavaScript `filename.split('.')` (single-character separator). -/
def splitOnDot : List Char → List (List Char)
  | [] => [[]]
  | c :: cs =>
    if c = '.' then [] :: splitOnDot cs
    else
      match splitOnDot cs with
      | [] => [[c]]
      | t :: ts => (c :: t) :: ts

/-- Model of `filename.split('.').pop()?.toLowerCase()` (`fileUtils.ts` lines 32
and 123). -/
def extOf (filename : String) : String :=
  String.mk (((splitOnDot filename.data).getLastD []).map Char.toLower)

/-- The extension-to-MIME lookup table of `getMimeTypeFromExtension`
(`fileUtils.ts` lines 34-114). -/
def mimeTypes : List (String × String) :=
  [("txt", "text/plain"), ("md", "text/markdown"), ("html", "text/html"),
   ("htm", "text/html"), ("css", "text/css"), ("csv", "text/csv"),
   ("rtf", "text/rtf"),
   ("js", "application/javascript"), ("mjs", "application/javascript"),
   ("json", "application/json"), ("py", "text/x-python"),
   ("java", "text/x-java"), ("c", "text/x-c"), ("cpp", "text/x-c++"),
   ("cc", "text/x-c++"), ("cxx", "text/x-c++"), ("h", "text/x-c"),
   ("hpp", "text/x-c++"), ("cs", "text/x-csharp"), ("php", "text/x-php"),
   ("rb", "text/x-ruby"), ("pl", "text/x-perl"), ("sh", "application/x-sh"),
   ("bash", "application/x-sh"), ("zsh", "application/x-sh"),
   ("fish", "application/x-sh"), ("sql", "text/x-sql"),
   ("xml", "application/xml"), ("yaml", "application/yaml"),
   ("yml", "application/yaml"), ("toml", "application/toml"),
   ("ini", "text/plain"), ("cfg", "text/plain"), ("conf", "text/plain"),
   ("log", "text/plain"),
   ("ts", "application/typescript"), ("tsx", "application/typescript"),
   ("svg", "image/svg+xml"),
   ("jpg", "image/jpeg"), ("jpeg", "image/jpeg"), ("png", "image/png"),
   ("gif", "image/gif"), ("webp", "image/webp"), ("bmp", "image/bmp"),
   ("ico", "image/x-icon"),
   ("pdf", "application/pdf"), ("doc", "application/msword"),
   ("docx", "application/vnd.openxmlformats-officedocument.wordprocessingml.document"),
   ("xls", "application/vnd.ms-excel"),
   ("xlsx", "application/vnd.openxmlformats-officedocument.spreadsheetml.sheet"),
   ("ppt", "application/vnd.ms-powerpoint"),
   ("pptx", "application/vnd.openxmlformats-officedocument.presentationml.presentation"),
   ("zip", "application/zip"), ("rar", "application/x-rar-compressed"),
   ("7z", "application/x-7z-compressed"), ("tar", "application/x-tar"),
   ("gz", "application/gzip"),
   ("mp3", "audio/mpeg"), ("wav", "audio/wav"), ("ogg", "audio/ogg"),
   ("mp4", "video/mp4"), ("avi", "video/x-msvideo"),
   ("mov", "video/quicktime"), ("webm", "video/webm")]

/-- Model of `getMimeTypeFromExtension` (`fileUtils.ts` lines 31-117). -/
def getMimeTypeFromExtension (filename : String) : String :=
  (mimeTypes.lookup (extOf filename)).getD "application/octet-stream"

/-- The static allow-list of `isTextFileExtension`
(`fileUtils.ts` lines 124-129). -/
def textExtensions : List String :=
  ["txt", "md", "html", "htm", "css", "csv", "rtf",
   "js", "mjs", "json", "py", "java", "c", "cpp", "cc", "cxx", "h", "hpp",
   "cs", "php", "rb", "pl", "sh", "bash", "zsh", "fish", "sql", "xml",
   "yaml", "yml", "toml", "ini", "cfg", "conf", "log", "ts", "tsx"]

/-- Model of `isTextFileExtension` (`fileUtils.ts` lines 122-131). -/
def isTextFileExtension (filename : String) : Bool :=
  textExtensions.contains (extOf filename)

/-- The observable part of a browser `File` handle: name, declared MIME
type (possibly empty) and byte size. -/
structure JsFile where
  name : String
  type : String
  size : Nat
deriving DecidableEq

/-- Outcomes of the two possible `FileReader` operations on a file, as an
oracle: `readFileAsText` and `readFileAsBase64` each either yield a string
or fail with an error message. -/
structure ReadOracle where
  readText : Except String String
  readBase64 : Except String String

/-- The two attachment shapes returned by `processFile`
(`MessageExtraTextFile` and `MessageExtraFile` of `types.ts`). -/
inductive MessageExtra where
  | textFile (name content : String)
  | file (name mimeType : String) (size : Nat) (content : String) (isText : Bool)
deriving DecidableEq

/-- The size-limit error message of `processFile` (`fileUtils.ts` line 178). -/
def sizeErrorMsg (f : JsFile) : String :=
  "File \"" ++ f.name ++ "\" is too large. Maximum size is " ++
    toString (MAX_FILE_SIZE / 1024 / 1024) ++ "MB."

/-- MIME resolution of `processFile` (`fileUtils.ts` line 182):
`file.type || getMimeTypeFromExtension(file.name)`. -/
def resolveMime (f : JsFile) : String :=
  if f.type ≠ "" then f.type else getMimeTypeFromExtension f.name

/-- The `try` body of `processFile` (`fileUtils.ts` lines 186-218): text
classification, text read with base64 fallback for text files, base64 read
for binary files. -/
def processFileBody (f : JsFile) (o : ReadOracle) : Except String MessageExtra :=
  let mimeType := resolveMime f
  let isText := isTextMimeType mimeType || isTextFileExtension f.name
  if isText then
    match o.readText with
    | .ok textContent => .ok (.textFile f.name textContent)
    | .error _ =>
      match o.readBase64 with
      | .ok base64Content => .ok (.file f.name mimeType f.size base64Content true)
      | .error e => .error e
  else
    match o.readBase64 with
    | .ok base64Content => .ok (.file f.name mimeType f.size base64Content false)
    | .error e => .error e

/-- The outer `catch` of `processFile` (`fileUtils.ts` lines 219-221):
wrap any failure in a processing error naming the file. -/
def wrapProcessError (name : String) :
    Except String MessageExtra → Except String MessageExtra
  | .ok r => .ok r
  | .error e => .error ("Failed to process file \"" ++ name ++ "\": " ++ e)

/-- Model of `processFile` (`fileUtils.ts` lines 175-222). Failure is an `Except`
error carrying the thrown message. -/
def processFile (f : JsFile) (o : ReadOracle) : Except String MessageExtra :=
  if MAX_FILE_SIZE < f.size then .error (sizeErrorMsg f)
  else wrapProcessError f.name (processFileBody f o)

/-- Model of `formatFileSize` (`fileUtils.ts` lines 227-235).
`Math.floor(Math.log(bytes) / Math.log(1024))` is modelled exactly as
`Nat.log 1024 bytes`; `toFixed(1)` is rounding to tenths (half away from
zero), and `parseFloat` of the result drops a trailing `.0`, so the number
is rendered without a decimal part when the tenths digit is zero. -/
def formatFileSize (bytes : Nat) : String :=
  if bytes = 0 then "0 B"
  else
    let i := Nat.log 1024 bytes
    let p := 1024 ^ i
    let tenths := (bytes * 10 * 2 + p) / (2 * p)
    let numStr :=
      if tenths % 10 = 0 then toString (tenths / 10)
      else toString (tenths / 10) ++ "." ++ toString (tenths % 10)
    numStr ++ " " ++ (["B", "KB", "MB", "GB"].getD i "undefined")

end FileUtils

namespace Rag

theorem codeHashStep_eq_specHashStep (h : Int) (c : Nat) :
    codeHashStep h c = specHashStep h c := by
  unfold codeHashStep specHashStep toInt32
  omega

theorem codeHash_eq_specHash (codes : List Nat) : codeHash codes = specHash codes := by
  unfold codeHash specHash
  have hstep : codeHashStep = specHashStep :=
    funext fun h => funext fun c => codeHashStep_eq_specHashStep h c
  rw [hstep]

/-- C5: the code's rolling hash `((hash << 5) - hash + charCode) & 0xffffffff`
with `Math.abs(hash) % 100` computes, for every sequence of char codes, the
same hash value and the same bucket index as the spec's reference algorithm
`hash = (hash * 31 + charCode) mod 2^32` (signed 32-bit wraparound) with
`abs(hash) mod 100`. -/
theorem c5_hash_to_index_equivalence (codes : List Nat) :
    codeHash codes = specHash codes ∧ bucketOfCodes codes = specBucketOfCodes codes := by
  refine ⟨codeHash_eq_specHash codes, ?_⟩
  unfold bucketOfCodes specBucketOfCodes
  rw [codeHash_eq_specHash codes]

theorem foldl_sq_nat (l : List Nat) :
    ∀ a : Nat, l.foldl (fun s v => s + v * v) a = a + (l.map (fun v => v * v)).sum := by
  induction l with
  | nil => intro a; simp
  | cons x xs ih =>
    intro a
    simp only [List.foldl_cons, List.map_cons, List.sum_cons, ih]
    ring

theorem foldl_sq_real (l : List ℝ) :
    ∀ a : ℝ, l.foldl (fun s v => s + v * v) a = a + (l.map (fun v => v * v)).sum := by
  induction l with
  | nil => intro a; simp
  | cons x xs ih =>
    intro a
    simp only [List.foldl_cons, List.map_cons, List.sum_cons, ih]
    ring

theorem sumSq_eq_sum_map (l : List ℝ) : sumSq l = (l.map (fun v => v * v)).sum := by
  simpa using foldl_sq_real l 0

theorem sumSqNat_eq_sum_map (l : List Nat) :
    sumSqNat l = (l.map (fun v => v * v)).sum := by
  simpa using foldl_sq_nat l 0

theorem sumSq_map_cast (l : List Nat) :
    sumSq (l.map (fun (n : ℕ) => (n : ℝ))) = (sumSqNat l : ℝ) := by
  rw [sumSq_eq_sum_map, sumSqNat_eq_sum_map]
  induction l with
  | nil => simp
  | cons x xs ih =>
    simp only [List.map_cons, List.sum_cons]
    rw [ih]
    push_cast
    ring

theorem sum_map_div (l : List ℝ) (c : ℝ) :
    (l.map (fun v => v / c)).sum = l.sum / c := by
  induction l with
  | nil => simp
  | cons x xs ih => simp [ih, add_div]

theorem sumSq_map_div (l : List ℝ) (m : ℝ) :
    sumSq (l.map (fun v => v / m)) = sumSq l / (m * m) := by
  rw [sumSq_eq_sum_map, sumSq_eq_sum_map, List.map_map]
  have h : ((fun v => v * v) ∘ fun v => v / m) = fun v => (v * v) / (m * m) := by
    funext v
    simp [Function.comp, div_mul_div_comm]
  rw [h]
  have h2 : (fun v => v * v / (m * m)) = (fun v => v / (m * m)) ∘ (fun v => v * v) := by
    funext v
    simp [Function.comp]
  rw [h2, ← List.map_map, sum_map_div]

theorem jsSplitWsF_ne_nil : ∀ (cs : List Char) (b : Bool), jsSplitWsF b cs ≠ [] := by
  intro cs
  induction cs with
  | nil => intro b; simp [jsSplitWsF]
  | cons c cs ih =>
    intro b
    simp only [jsSplitWsF]
    split
    · split
      · exact ih true
      · simp
    · split
      · simp
      · simp

theorem tokenize_ne_nil (text : String) : tokenize text ≠ [] :=
  jsSplitWsF_ne_nil _ false

theorem fold_incAt_length (ws : List (List Char)) :
    ∀ v : List Nat, (ws.foldl (fun v w => incAt v (bucketOf w)) v).length = v.length := by
  induction ws with
  | nil => intro v; rfl
  | cons w ws ih =>
    intro v
    simp only [List.foldl_cons, ih]
    simp [incAt]

theorem rawEmbedding_length (text : String) : (rawEmbedding text).length = 100 := by
  simp [rawEmbedding, fold_incAt_length]

theorem getD_le_incAt (v : List Nat) (i j : Nat) :
    v.getD j 0 ≤ (incAt v i).getD j 0 := by
  unfold incAt
  rw [List.getD_eq_getElem?_getD, List.getD_eq_getElem?_getD, List.getElem?_set]
  by_cases hij : i = j
  · subst hij
    by_cases hlen : i < v.length
    · simp [hlen, List.getD_eq_getElem?_getD]
    · rw [if_pos rfl, if_neg hlen, List.getElem?_eq_none (Nat.le_of_not_lt hlen)]
  · simp [hij]

theorem fold_getD_mono (ws : List (List Char)) :
    ∀ (v : List Nat) (j : Nat),
      v.getD j 0 ≤ (ws.foldl (fun v w => incAt v (bucketOf w)) v).getD j 0 := by
  induction ws with
  | nil => intro v j; exact Nat.le_refl _
  | cons w ws ih =>
    intro v j
    exact Nat.le_trans (getD_le_incAt v (bucketOf w) j) (ih _ j)

theorem bucketOf_lt (w : List Char) : bucketOf w < 100 :=
  Nat.mod_lt _ (by norm_num)

theorem one_le_sumSqNat_raw (text : String) : 1 ≤ sumSqNat (rawEmbedding text) := by
  obtain ⟨w, ws, hws⟩ : ∃ w ws, tokenize text = w :: ws := by
    cases h : tokenize text with
    | nil => exact absurd h (tokenize_ne_nil text)
    | cons w ws => exact ⟨w, ws, rfl⟩
  have hb : bucketOf w < 100 := bucketOf_lt w
  have h0 : (List.replicate 100 (0 : ℕ)).getD (bucketOf w) 0 = 0 := by
    rw [List.getD_eq_getElem?_getD, List.getElem?_replicate, if_pos hb]
    rfl
  have hone : (incAt (List.replicate 100 0) (bucketOf w)).getD (bucketOf w) 0 = 1 := by
    unfold incAt
    rw [List.getD_eq_getElem?_getD, List.getElem?_set, if_pos rfl,
      if_pos (by simpa using hb), h0]
    rfl
  have hraw : rawEmbedding text =
      ws.foldl (fun v w => incAt v (bucketOf w))
        (incAt (List.replicate 100 0) (bucketOf w)) := by
    simp [rawEmbedding, hws]
  have hge : 1 ≤ (rawEmbedding text).getD (bucketOf w) 0 := by
    rw [hraw, ← hone]
    exact fold_getD_mono ws _ (bucketOf w)
  have hblen : bucketOf w < (rawEmbedding text).length := by
    rw [rawEmbedding_length]; exact hb
  set x := (rawEmbedding text).getD (bucketOf w) 0 with hx
  have hmem : x * x ∈ (rawEmbedding text).map (fun v => v * v) := by
    have : x = (rawEmbedding text)[bucketOf w] := by
      rw [hx, List.getD_eq_getElem?_getD, List.getElem?_eq_getElem hblen]
      rfl
    rw [this]
    exact List.mem_map_of_mem _ (List.getElem_mem hblen)
  have hle : x * x ≤ ((rawEmbedding text).map (fun v => v * v)).sum :=
    List.single_le_sum (fun y _ => Nat.zero_le y) _ hmem
  have h1 : 1 ≤ x * x := Nat.one_le_iff_ne_zero.mpr (by positivity)
  rw [sumSqNat_eq_sum_map]
  exact Nat.le_trans h1 hle

theorem generateSimpleEmbedding_eq (text : String) :
    generateSimpleEmbedding text =
      ((rawEmbedding text).map (fun (n : ℕ) => (n : ℝ))).map
        (fun v => v / Real.sqrt ((sumSqNat (rawEmbedding text) : ℕ) : ℝ)) := by
  have hS : (1 : ℝ) ≤ ((sumSqNat (rawEmbedding text) : ℕ) : ℝ) := by
    exact_mod_cast one_le_sumSqNat_raw text
  have hpos : 0 < Real.sqrt ((sumSqNat (rawEmbedding text) : ℕ) : ℝ) :=
    Real.sqrt_pos.mpr (by linarith)
  simp only [generateSimpleEmbedding, sumSq_map_cast]
  rw [if_pos hpos]

/-- C4 counterexample: the claim says `generateSimpleEmbedding` of the empty
string is the all-zero vector, but JavaScript `"".split(/\s+/)` yields one
empty token, which hashes to bucket 0, so the embedding of `""` is the unit
vector with a 1 in position 0. -/
theorem c4_counterexample :
    generateSimpleEmbedding "" ≠ List.replicate 100 (0 : ℝ) := by
  intro h
  have hraw : rawEmbedding "" = 1 :: List.replicate 99 0 := by decide
  have hsum : sumSqNat (1 :: List.replicate 99 0) = 1 := by decide
  have hemb := generateSimpleEmbedding_eq ""
  rw [hraw, hsum] at hemb
  rw [hemb] at h
  simp only [Nat.cast_one, Real.sqrt_one, List.map_cons, List.map_replicate,
    Nat.cast_zero, div_one, zero_div] at h
  have h100 : List.replicate 100 (0 : ℝ) = 0 :: List.replicate 99 0 := rfl
  rw [h100] at h
  have := (List.cons.injEq _ _ _ _).mp h
  exact one_ne_zero this.1

/-- C4 (amended): for every input string — including the empty and
whitespace-only strings — `generateSimpleEmbedding` returns a vector of
dimension 100 whose Euclidean norm is exactly 1 in the real-number model;
no input produces the all-zero vector, because every token (even the empty
token arising from splitting an empty or whitespace-only string) increments
one bucket. -/
theorem c4_amended_embedding_norm (text : String) :
    (generateSimpleEmbedding text).length = 100 ∧
    Real.sqrt (sumSq (generateSimpleEmbedding text)) = 1 := by
  have hS1 : (1 : ℝ) ≤ ((sumSqNat (rawEmbedding text) : ℕ) : ℝ) := by
    exact_mod_cast one_le_sumSqNat_raw text
  have hS0 : (0 : ℝ) ≤ ((sumSqNat (rawEmbedding text) : ℕ) : ℝ) := by linarith
  have hSne : ((sumSqNat (rawEmbedding text) : ℕ) : ℝ) ≠ 0 := by linarith
  constructor
  · rw [generateSimpleEmbedding_eq, List.length_map, List.length_map,
      rawEmbedding_length]
  · rw [generateSimpleEmbedding_eq, sumSq_map_div, sumSq_map_cast,
      Real.mul_self_sqrt hS0, div_self hSne, Real.sqrt_one]

theorem joinSep_enumFrom_eq_claimBody :
    ∀ (l : List Document) (i : Nat),
      joinSep "\n\n---\n\n"
        ((List.enumFrom i l).map (fun p =>
          "Document " ++ toString (p.1 + 1) ++ " (" ++ p.2.title ++ "):\n" ++ p.2.content)) =
        claimBody (i + 1) l
  | [], _ => rfl
  | [_], _ => rfl
  | d :: d' :: rest, i => by
    show joinSep "\n\n---\n\n"
        (claimBlock (i + 1) d ::
          (List.enumFrom (i + 1) (d' :: rest)).map (fun p =>
            "Document " ++ toString (p.1 + 1) ++ " (" ++ p.2.title ++ "):\n" ++ p.2.content)) =
      claimBody (i + 1) (d :: d' :: rest)
    rw [List.enumFrom, List.map]
    show claimBlock (i + 1) d ++ "\n\n---\n\n" ++
        joinSep "\n\n---\n\n"
          ((List.enumFrom (i + 1) (d' :: rest)).map (fun p =>
            "Document " ++ toString (p.1 + 1) ++ " (" ++ p.2.title ++ "):\n" ++ p.2.content)) =
      claimBody (i + 1) (d :: d' :: rest)
    rw [joinSep_enumFrom_eq_claimBody (d' :: rest) (i + 1)]
    rfl

/-- C6: `generateContext` of the empty list is the empty string, and for a
non-empty list of `N` documents it is exactly the header
`"Context from N relevant document(s):"`, a blank line, and the 1-indexed
`"Document i (<title>):"` blocks with full contents, consecutive blocks
separated by a line containing exactly `---`. -/
theorem c6_generate_context :
    generateContext [] = "" ∧
    ∀ (d : Document) (ds : List Document),
      generateContext (d :: ds) =
        "Context from " ++ toString (d :: ds).length ++
          " relevant document(s):\n\n" ++ claimBody 1 (d :: ds) := by
  refine ⟨rfl, fun d ds => ?_⟩
  show (if (d :: ds).length = 0 then "" else _) = _
  rw [if_neg (by simp)]
  have h := joinSep_enumFrom_eq_claimBody (d :: ds) 0
  simp only [Nat.zero_add] at h
  show "Context from " ++ toString (d :: ds).length ++ " relevant document(s):\n\n" ++
      joinSep "\n\n---\n\n"
        ((List.enumFrom 0 (d :: ds)).map (fun p =>
          "Document " ++ toString (p.1 + 1) ++ " (" ++ p.2.title ++ "):\n" ++ p.2.content)) =
    "Context from " ++ toString (d :: ds).length ++ " relevant document(s):\n\n" ++
      claimBody 1 (d :: ds)
  rw [h]

end Rag

namespace FileUtils

/-- C7: a file whose byte size strictly exceeds 10 MiB fails with the
size-limit error, whose message names the file and the numeric limit
(10 MB), and the outcome does not depend on the read oracle (no read is
consulted); a file of size at most 10 MiB passes the size check and is
processed — its outcome is either an attachment or a wrapped processing
error, never the size-limit error. -/
theorem c7_size_limit (f : JsFile) (o : ReadOracle) :
    (MAX_FILE_SIZE < f.size →
      processFile f o = .error (sizeErrorMsg f) ∧
      ∀ o' : ReadOracle, processFile f o' = processFile f o) ∧
    sizeErrorMsg f =
      "File \"" ++ f.name ++ "\" is too large. Maximum size is " ++
        toString (10 : Nat) ++ "MB." ∧
    (f.size ≤ MAX_FILE_SIZE →
      (∃ r, processFile f o = .ok r) ∨
      (∃ e, processFile f o =
        .error ("Failed to process file \"" ++ f.name ++ "\": " ++ e))) := by
  refine ⟨fun hbig => ⟨?_, fun o' => ?_⟩, rfl, fun hsmall => ?_⟩
  · unfold processFile
    rw [if_pos hbig]
  · unfold processFile
    rw [if_pos hbig, if_pos hbig]
  · unfold processFile
    rw [if_neg (Nat.not_lt.mpr hsmall)]
    cases hB : processFileBody f o with
    | ok r => exact Or.inl ⟨r, rfl⟩
    | error e => exact Or.inr ⟨e, rfl⟩

theorem c7_size_limit_witness :
    MAX_FILE_SIZE < (10485761 : Nat) ∧
    (processFile ⟨"big.bin", "", 10485761⟩ ⟨.ok "t", .ok "b"⟩ =
        .error (sizeErrorMsg ⟨"big.bin", "", 10485761⟩) ∧
      ∀ o' : ReadOracle, processFile ⟨"big.bin", "", 10485761⟩ o' =
        processFile ⟨"big.bin", "", 10485761⟩ ⟨.ok "t", .ok "b"⟩) ∧
    ((3 : Nat) ≤ MAX_FILE_SIZE ∧
      ((∃ r, processFile ⟨"a.txt", "", 3⟩ ⟨.ok "hello", .ok "b"⟩ = .ok r) ∨
       (∃ e, processFile ⟨"a.txt", "", 3⟩ ⟨.ok "hello", .ok "b"⟩ =
         .error ("Failed to process file \"" ++ "a.txt" ++ "\": " ++ e)))) :=
  ⟨by decide,
   (c7_size_limit ⟨"big.bin", "", 10485761⟩ ⟨.ok "t", .ok "b"⟩).1 (by decide),
   by decide,
   (c7_size_limit ⟨"a.txt", "", 3⟩ ⟨.ok "hello", .ok "b"⟩).2.2 (by decide)⟩

/-- C8: when both reads succeed and the file passes the size check,
`processFile` returns a text attachment exactly when the resolved MIME type
matches a text pattern OR the file's extension is in the text allow-list;
and a concrete file with a binary-looking declared MIME type
(`application/octet-stream`) and a text-listed extension (`.py`) is still
classified as text — the extension acts as an OR-fallback. -/
theorem c8_text_classification (f : JsFile) (o : ReadOracle) (t b : String)
    (ht : o.readText = .ok t) (hb : o.readBase64 = .ok b)
    (hsize : f.size ≤ MAX_FILE_SIZE) :
    ((∃ c, processFile f o = .ok (.textFile f.name c)) ↔
      (isTextMimeType (resolveMime f) = true ∨ isTextFileExtension f.name = true)) ∧
    (isTextMimeType (resolveMime ⟨"x.py", "application/octet-stream", 5⟩) = false ∧
     isTextFileExtension "x.py" = true ∧
     processFile ⟨"x.py", "application/octet-stream", 5⟩ ⟨.ok "print", .ok "b64"⟩ =
       .ok (.textFile "x.py" "print")) := by
  refine ⟨?_, by decide, by decide, rfl⟩
  unfold processFile
  rw [if_neg (Nat.not_lt.mpr hsize)]
  simp only [processFileBody]
  by_cases hIT : (isTextMimeType (resolveMime f) || isTextFileExtension f.name) = true
  · rw [hIT]
    simp only [if_true, ht]
    constructor
    · intro _
      exact Bool.or_eq_true_iff.mp hIT
    · intro _
      exact ⟨t, rfl⟩
  · rw [Bool.not_eq_true] at hIT
    rw [hIT]
    simp only [Bool.false_eq_true, if_false, hb]
    constructor
    · intro ⟨c, hc⟩
      simp only [wrapProcessError] at hc
      cases hc
    · intro hor
      rw [Bool.or_eq_false_iff] at hIT
      rcases hor with h1 | h1
      · rw [hIT.1] at h1; cases h1
      · rw [hIT.2] at h1; cases h1

theorem c8_text_classification_witness :
    (⟨Except.ok "hello", Except.ok "b"⟩ : ReadOracle).readText = .ok "hello" ∧
    (⟨Except.ok "hello", Except.ok "b"⟩ : ReadOracle).readBase64 = .ok "b" ∧
    (⟨"a.txt", "", 3⟩ : JsFile).size ≤ MAX_FILE_SIZE ∧
    (((∃ c, processFile ⟨"a.txt", "", 3⟩ ⟨Except.ok "hello", Except.ok "b"⟩ =
          .ok (.textFile (JsFile.name ⟨"a.txt", "", 3⟩) c)) ↔
        (isTextMimeType (resolveMime ⟨"a.txt", "", 3⟩) = true ∨
          isTextFileExtension (JsFile.name ⟨"a.txt", "", 3⟩) = true)) ∧
      (isTextMimeType (resolveMime ⟨"x.py", "application/octet-stream", 5⟩) = false ∧
       isTextFileExtension "x.py" = true ∧
       processFile ⟨"x.py", "application/octet-stream", 5⟩ ⟨.ok "print", .ok "b64"⟩ =
         .ok (.textFile "x.py" "print"))) :=
  ⟨rfl, rfl, by decide,
   c8_text_classification ⟨"a.txt", "", 3⟩ ⟨Except.ok "hello", Except.ok "b"⟩
     "hello" "b" rfl rfl (by decide)⟩

/-- C9 counterexample: the claim asserts `formatFileSize 1048576 = "1.0 MB"`,
but the code applies `parseFloat` to the `toFixed(1)` string, which drops
the trailing `.0`, so the result is `"1 MB"`. -/
theorem c9_counterexample :
    formatFileSize 1048576 = "1 MB" ∧ "1 MB" ≠ "1.0 MB" := by
  constructor
  · have hlog : Nat.log 1024 1048576 = 2 :=
      Nat.log_eq_of_pow_le_of_lt_pow (by norm_num) (by norm_num)
    simp only [formatFileSize, hlog]
    decide
  · decide

/-- C9 (amended): `formatFileSize 0 = "0 B"`; positive byte counts below
`1024^4` are formatted with binary (1024-base) multiples and the unit
suffix B/KB/MB/GB selected by the binary magnitude; the numeric part is the
value rounded to one decimal place with a trailing `.0` dropped (so
`formatFileSize 1048576 = "1 MB"`, not `"1.0 MB"`, while
`formatFileSize 1536 = "1.5 KB"`), and the displayed value is within 1/20
of `bytes / 1024^i`. -/
theorem c9_amended_format_file_size :
    formatFileSize 0 = "0 B" ∧
    formatFileSize 1536 = "1.5 KB" ∧
    formatFileSize 1048576 = "1 MB" ∧
    ∀ bytes : Nat, 0 < bytes → bytes < 1024 ^ 4 →
      ∃ d r : Nat,
        r < 10 ∧
        1024 ^ Nat.log 1024 bytes ≤ bytes ∧
        bytes < 1024 ^ (Nat.log 1024 bytes + 1) ∧
        Nat.log 1024 bytes ≤ 3 ∧
        formatFileSize bytes =
          (if r = 0 then toString d else toString d ++ "." ++ toString r) ++ " " ++
            ["B", "KB", "MB", "GB"].getD (Nat.log 1024 bytes) "undefined" ∧
        |((d : ℚ) + (r : ℚ) / 10) -
            (bytes : ℚ) / ((1024 ^ Nat.log 1024 bytes : ℕ) : ℚ)| ≤ 1 / 20 := by
  refine ⟨rfl, ?_, ?_, ?_⟩
  · have hlog : Nat.log 1024 1536 = 1 :=
      Nat.log_eq_of_pow_le_of_lt_pow (by norm_num) (by norm_num)
    simp only [formatFileSize, hlog]
    decide
  · have hlog : Nat.log 1024 1048576 = 2 :=
      Nat.log_eq_of_pow_le_of_lt_pow (by norm_num) (by norm_num)
    simp only [formatFileSize, hlog]
    decide
  · intro bytes h0 h4
    have hple : 1024 ^ Nat.log 1024 bytes ≤ bytes :=
      Nat.pow_log_le_self 1024 h0.ne'
    have hlt : bytes < 1024 ^ (Nat.log 1024 bytes + 1) :=
      Nat.lt_pow_succ_log_self (by norm_num) bytes
    have hi3 : Nat.log 1024 bytes ≤ 3 := by
      by_contra hgt
      push_neg at hgt
      have h44 : (1024 : ℕ) ^ 4 ≤ 1024 ^ Nat.log 1024 bytes :=
        Nat.pow_le_pow_right (by norm_num) hgt
      omega
    refine ⟨(bytes * 10 * 2 + 1024 ^ Nat.log 1024 bytes) /
        (2 * 1024 ^ Nat.log 1024 bytes) / 10,
      (bytes * 10 * 2 + 1024 ^ Nat.log 1024 bytes) /
        (2 * 1024 ^ Nat.log 1024 bytes) % 10,
      Nat.mod_lt _ (by norm_num), hple, hlt, hi3, ?_, ?_⟩
    · simp only [formatFileSize]
      rw [if_neg h0.ne']
    · have hppos : 0 < 1024 ^ Nat.log 1024 bytes := Nat.pos_pow_of_pos _ (by norm_num)
      set p := 1024 ^ Nat.log 1024 bytes with hp
      set T := (bytes * 10 * 2 + p) / (2 * p) with hT
      have hdm := Nat.div_add_mod (bytes * 10 * 2 + p) (2 * p)
      have hrem : (bytes * 10 * 2 + p) % (2 * p) < 2 * p :=
        Nat.mod_lt _ (by omega)
      have hdm10 := Nat.div_add_mod T 10
      set rem := (bytes * 10 * 2 + p) % (2 * p) with hrem_def
      have hpQ : (0 : ℚ) < (p : ℚ) := by exact_mod_cast hppos
      have hdmQ : (2 : ℚ) * p * T + rem = bytes * 10 * 2 + p := by exact_mod_cast hdm
      have hremQ : (rem : ℚ) < 2 * p := by exact_mod_cast hrem
      have hremQ0 : (0 : ℚ) ≤ (rem : ℚ) := by positivity
      have hval : ((T / 10 : ℕ) : ℚ) + ((T % 10 : ℕ) : ℚ) / 10 = (T : ℚ) / 10 := by
        have : ((10 : ℕ) : ℚ) * ((T / 10 : ℕ) : ℚ) + ((T % 10 : ℕ) : ℚ) = (T : ℚ) := by
          exact_mod_cast hdm10
        push_cast at this ⊢
        linarith
      rw [hval]
      have key : (T : ℚ) / 10 - (bytes : ℚ) / (p : ℚ) =
          ((p : ℚ) - rem) / (20 * p) := by
        rw [div_sub_div _ _ (by norm_num : (10 : ℚ) ≠ 0) hpQ.ne',
          div_eq_div_iff (by positivity) (by positivity)]
        ring_nf
        nlinarith [hdmQ]
      rw [key, abs_div, abs_of_pos (by positivity : (0 : ℚ) < 20 * p)]
      have habs : |(p : ℚ) - rem| ≤ (p : ℚ) := by
        rw [abs_le]
        constructor <;> linarith
      calc |(p : ℚ) - rem| / (20 * p) ≤ (p : ℚ) / (20 * p) :=
            (div_le_div_iff_of_pos_right (by positivity)).mpr habs
        _ = 1 / 20 := by
            field_simp
            ring

theorem c9_amended_format_file_size_witness :
    (0 : Nat) < 2048 ∧ (2048 : Nat) < 1024 ^ 4 ∧
    ∃ d r : Nat,
      r < 10 ∧
      1024 ^ Nat.log 1024 2048 ≤ 2048 ∧
      2048 < 1024 ^ (Nat.log 1024 2048 + 1) ∧
      Nat.log 1024 2048 ≤ 3 ∧
      formatFileSize 2048 =
        (if r = 0 then toString d else toString d ++ "." ++ toString r) ++ " " ++
          ["B", "KB", "MB", "GB"].getD (Nat.log 1024 2048) "undefined" ∧
      |((d : ℚ) + (r : ℚ) / 10) -
          (2048 : ℚ) / ((1024 ^ Nat.log 1024 2048 : ℕ) : ℚ)| ≤ 1 / 20 :=
  ⟨by decide, by norm_num,
   c9_amended_format_file_size.2.2.2 2048 (by decide) (by norm_num)⟩

end FileUtils

namespace Rag

theorem jsSlice_length_le (text : List Char) (start e chunkSize : Int)
    (hs : 0 ≤ start) (he0 : 0 ≤ e) (he : e ≤ start + chunkSize) :
    (jsSlice text start e).length ≤ chunkSize.toNat := by
  unfold jsSlice
  simp only [List.length_drop, List.length_take]
  split_ifs <;> omega

theorem chunkTextFuel_some :
    ∀ (fuel : Nat) (text : List Char) (start chunkSize overlap : Int)
      (acc : List (List Char)),
      1 ≤ chunkSize → 0 ≤ overlap → overlap < chunkSize → 0 ≤ start →
      0 < fuel → (text.length : Int) - start < fuel →
      ∃ res, chunkTextFuel fuel text start chunkSize overlap acc = some res ∧
        ((∀ c ∈ acc, c.length ≤ chunkSize.toNat) →
          ∀ c ∈ res, c.length ≤ chunkSize.toNat) := by
  intro fuel
  induction fuel with
  | zero => intro _ _ _ _ _ _ _ _ _ hf _; omega
  | succ n ih =>
    intro text start chunkSize overlap acc h1 h2 h3 h4 _ hfuel
    simp only [chunkTextFuel]
    by_cases hs : start < (text.length : Int)
    · rw [if_pos hs]
      by_cases he : min (start + chunkSize) (text.length : Int) = (text.length : Int)
      · rw [if_pos he]
        refine ⟨acc ++ [jsSlice text start (min (start + chunkSize) (text.length : Int))],
          rfl, fun hacc c hc => ?_⟩
        rcases List.mem_append.mp hc with h | h
        · exact hacc c h
        · rcases List.mem_singleton.mp h with rfl
          exact jsSlice_length_le text start _ chunkSize h4 (by omega) (by omega)
      · rw [if_neg he]
        have hmin : min (start + chunkSize) (text.length : Int) = start + chunkSize := by
          omega
        obtain ⟨res, hres, hbound⟩ :=
          ih text (min (start + chunkSize) (text.length : Int) - overlap)
            chunkSize overlap
            (acc ++ [jsSlice text start (min (start + chunkSize) (text.length : Int))])
            h1 h2 h3 (by omega) (by omega) (by omega)
        refine ⟨res, hres, fun hacc => hbound (fun c hc => ?_)⟩
        rcases List.mem_append.mp hc with h | h
        · exact hacc c h
        · rcases List.mem_singleton.mp h with rfl
          exact jsSlice_length_le text start _ chunkSize h4 (by omega) (by omega)
    · rw [if_neg hs]
      exact ⟨acc, rfl, fun hacc => hacc⟩

/-- C10: whenever `1 ≤ chunkSize` and `0 ≤ overlap < chunkSize`, the
`chunkText` loop terminates (fuel `text.length + 1` suffices) and every
produced chunk has length at most `chunkSize`; the precondition
`overlap < chunkSize` is necessary — with `overlap = chunkSize = 1` and the
two-character text `"ab"`, the loop never advances and no amount of fuel
makes it finish. -/
theorem c10_chunk_text_termination :
    (∀ (text : String) (chunkSize overlap : Int),
      1 ≤ chunkSize → 0 ≤ overlap → overlap < chunkSize →
      ∃ chunks, chunkText text chunkSize overlap = some chunks ∧
        ∀ c ∈ chunks, c.length ≤ chunkSize.toNat) ∧
    (∀ (fuel : Nat) (acc : List (List Char)),
      chunkTextFuel fuel "ab".data 0 1 1 acc = none) := by
  constructor
  · intro text chunkSize overlap h1 h2 h3
    have hlen : text.length = text.data.length := rfl
    obtain ⟨res, hres, hbound⟩ :=
      chunkTextFuel_some (text.length + 1) text.data 0 chunkSize overlap []
        h1 h2 h3 le_rfl (by omega) (by omega)
    refine ⟨res.map (fun l => String.mk l), ?_, ?_⟩
    · unfold chunkText
      rw [hres]
      rfl
    · intro c hc
      obtain ⟨l, hl, rfl⟩ := List.mem_map.mp hc
      exact hbound (fun c hc => absurd hc (List.not_mem_nil c)) l hl
  · intro fuel
    induction fuel with
    | zero => intro acc; rfl
    | succ n ih =>
      intro acc
      show chunkTextFuel (n + 1) "ab".data 0 1 1 acc = none
      simp only [chunkTextFuel]
      rw [if_pos (by norm_num), if_neg (by norm_num)]
      have : min ((0 : Int) + 1) (("ab".data.length : Nat) : Int) - 1 = 0 := by norm_num
      rw [this]
      exact ih _

theorem c10_chunk_text_termination_witness :
    (1 : Int) ≤ 3 ∧ (0 : Int) ≤ 1 ∧ (1 : Int) < 3 ∧
    ∃ chunks, chunkText "abcdefgh" 3 1 = some chunks ∧
      ∀ c ∈ chunks, c.length ≤ (3 : Int).toNat :=
  ⟨by decide, by decide, by decide,
   c10_chunk_text_termination.1 "abcdefgh" 3 1 (by decide) (by decide) (by decide)⟩

end Rag

namespace Rag

theorem mapSet_key_eq (m : List (String × Document)) (k : String) (v : Document) :
    ∀ p ∈ mapSet m k v, p.1 = k → p.2 = v := by
  unfold mapSet
  split
  · intro p hp hpk
    obtain ⟨q, hq, hqe⟩ := List.mem_map.mp hp
    by_cases h : (q.1 == k) = true
    · rw [if_pos h] at hqe
      rw [← hqe]
    · rw [if_neg h] at hqe
      subst hqe
      exact absurd (beq_iff_eq.mpr hpk) h
  · rename_i hany
    intro p hp hpk
    rcases List.mem_append.mp hp with h | h
    · have hall := List.any_eq_false.mp (Bool.not_eq_true _ ▸ hany)
      exact absurd (beq_iff_eq.mpr hpk) (by simpa using hall p h)
    · rcases List.mem_singleton.mp h with rfl
      rfl

theorem evictOldest_sublist (m : List (String × Document)) :
    (evictOldest m).Sublist m := by
  unfold evictOldest
  split
  · exact List.Sublist.refl m
  · exact List.eraseP_sublist m

theorem addDocument_mem_mapSet (s : RAGStore) (title content : String)
    (md : Option Metadata) (id : String) (now : Nat) :
    ∀ p ∈ (addDocument s title content md id now).documents,
      p ∈ mapSet s.documents id (mkDocument title content md id now) := by
  intro p hp
  simp only [addDocument] at hp
  split at hp
  · exact (evictOldest_sublist _).mem hp
  · exact hp

/-- C2: any document found in the store under the id assigned by
`addDocument(title, content, metadata)` carries store-assigned
`metadata.timestamp` (the insertion time) and `metadata.size` (the
character length of `content`), overriding any caller-supplied values for
those two keys, while the caller-supplied `source` and `type` keys are
preserved unchanged. -/
theorem c2_metadata_override (s : RAGStore) (title content : String)
    (md : Option Metadata) (id : String) (now : Nat) (d : Document)
    (hfound : mapLookup (addDocument s title content md id now).documents id = some d) :
    d.metadata = some
      { source := md.bind Metadata.source, type := md.bind Metadata.type,
        timestamp := some now, size := some content.length } := by
  unfold mapLookup at hfound
  obtain ⟨p, hfind, hpd⟩ := Option.map_eq_some'.mp hfound
  have hmem := List.mem_of_find?_eq_some hfind
  have hkey : p.1 = id := by
    have h := List.find?_some hfind
    simpa using h
  have hval : p.2 = mkDocument title content md id now :=
    mapSet_key_eq s.documents id (mkDocument title content md id now) p
      (addDocument_mem_mapSet s title content md id now p hmem) hkey
  rw [← hpd, hval]
  rfl

theorem c2_metadata_override_witness :
    mapLookup (addDocument (emptyStore ⟨1000, 1000, 200, 1 / 2, 5⟩) "T" "abc"
        (some ⟨some "src", some "typ", some 999, some 42⟩) "doc_1" 7).documents
        "doc_1" =
      some (mkDocument "T" "abc" (some ⟨some "src", some "typ", some 999, some 42⟩)
        "doc_1" 7) ∧
    (mkDocument "T" "abc" (some ⟨some "src", some "typ", some 999, some 42⟩)
        "doc_1" 7).metadata =
      some
        { source := (some (⟨some "src", some "typ", some 999, some 42⟩ : Metadata)).bind
            Metadata.source,
          type := (some (⟨some "src", some "typ", some 999, some 42⟩ : Metadata)).bind
            Metadata.type,
          timestamp := some 7, size := some "abc".length } :=
  ⟨rfl,
   c2_metadata_override (emptyStore ⟨1000, 1000, 200, 1 / 2, 5⟩) "T" "abc"
     (some ⟨some "src", some "typ", some 999, some 42⟩) "doc_1" 7
     (mkDocument "T" "abc" (some ⟨some "src", some "typ", some 999, some 42⟩) "doc_1" 7)
     rfl⟩

end Rag

namespace Rag

theorem filterMap_score_spec (docs : List (String × Document)) (t : ℝ)
    (g : Document → ℝ) (x : Document × ℝ)
    (hx : x ∈ docs.filterMap (fun p => if t ≤ g p.2 then some (p.2, g p.2) else none)) :
    (∃ p ∈ docs, x.1 = p.2) ∧ x.2 = g x.1 ∧ t ≤ x.2 := by
  obtain ⟨a, ha, hfa⟩ := List.mem_filterMap.mp hx
  by_cases h : t ≤ g a.2
  · rw [if_pos h] at hfa
    obtain rfl : (a.2, g a.2) = x := Option.some.inj hfa
    exact ⟨⟨a, ha, rfl⟩, rfl, h⟩
  · rw [if_neg h] at hfa
    cases hfa

theorem mergeSort_score_sorted (R : List (Document × ℝ)) :
    (R.mergeSort (fun a b => decide (b.2 ≤ a.2))).Pairwise
      (fun x y : Document × ℝ => y.2 ≤ x.2) := by
  have h := @List.sorted_mergeSort (Document × ℝ)
    (fun a b : Document × ℝ => decide (b.2 ≤ a.2))
    (fun a b c hab hbc => by
      rw [decide_eq_true_eq] at *
      exact le_trans hbc hab)
    (fun a b => by
      rcases le_total a.2 b.2 with h | h <;> simp [h])
    R
  exact h.imp (fun hab => of_decide_eq_true hab)

theorem take_mergeSort_mem (R : List (Document × ℝ)) (k : Nat) (x : Document × ℝ)
    (hx : x ∈ (R.mergeSort (fun a b => decide (b.2 ≤ a.2))).take k) : x ∈ R := by
  have h1 : x ∈ R.mergeSort (fun a b => decide (b.2 ≤ a.2)) :=
    (List.take_sublist k _).mem hx
  exact (List.mergeSort_perm R _).mem_iff.mp h1

/-- C3: for every store whose documents all carry embeddings (the normal
state, since `addDocument` always computes one) and every query: a
whitespace-only (or empty) query returns the empty list; otherwise the
result has length at most `maxRetrievedDocs`, is sorted by score in
descending order, and every returned document's cosine similarity with the
query's embedding is at least `similarityThreshold`. -/
theorem c3_search_documents (s : RAGStore) (query : String)
    (hemb : ∀ p ∈ s.documents, (p.2).embedding.isSome = true) :
    ((query.data.all Char.isWhitespace) = true → searchDocuments s query = []) ∧
    (searchDocuments s query).length ≤ s.config.maxRetrievedDocs ∧
    (searchDocuments s query).Pairwise
      (fun d1 d2 => scoreDoc query (generateSimpleEmbedding query) d2 ≤
        scoreDoc query (generateSimpleEmbedding query) d1) ∧
    (∀ d ∈ searchDocuments s query, ∃ e, d.embedding = some e ∧
      s.config.similarityThreshold ≤
        cosineSimilarity (generateSimpleEmbedding query) e) := by
  by_cases hq : (query.data.all Char.isWhitespace) = true
  · have hempty : searchDocuments s query = [] := by
      unfold searchDocuments
      rw [if_pos hq]
    rw [hempty]
    refine ⟨fun _ => rfl, by simp, List.Pairwise.nil, by simp⟩
  · simp only [searchDocuments, if_neg hq]
    set g : Document → ℝ := scoreDoc query (generateSimpleEmbedding query) with hg
    set R := s.documents.filterMap
      (fun p => if s.config.similarityThreshold ≤ g p.2 then some (p.2, g p.2) else none)
      with hR
    have hmemR : ∀ x ∈ R, (∃ p ∈ s.documents, x.1 = p.2) ∧ x.2 = g x.1 ∧
        s.config.similarityThreshold ≤ x.2 := by
      intro x hx
      exact filterMap_score_spec s.documents s.config.similarityThreshold g x (hR ▸ hx)
    refine ⟨fun h => absurd h hq, ?_, ?_, ?_⟩
    · rw [List.length_map, List.length_take]
      exact Nat.min_le_left _ _
    · rw [List.pairwise_map]
      have hsorted := mergeSort_score_sorted R
      have htake := hsorted.sublist (List.take_sublist s.config.maxRetrievedDocs _)
      refine htake.imp_of_mem ?_
      intro a b ha hb hab
      have ha' := (hmemR a (take_mergeSort_mem R _ a ha)).2.1
      have hb' := (hmemR b (take_mergeSort_mem R _ b hb)).2.1
      rw [← ha', ← hb']
      exact hab
    · intro d hd
      obtain ⟨x, hxtake, rfl⟩ := List.mem_map.mp hd
      obtain ⟨⟨p, hp, hxp⟩, hxg, hxt⟩ := hmemR x (take_mergeSort_mem R _ x hxtake)
      obtain ⟨e, he⟩ := Option.isSome_iff_exists.mp (hemb p hp)
      refine ⟨e, hxp ▸ he, ?_⟩
      have hscore : g x.1 = cosineSimilarity (generateSimpleEmbedding query) e := by
        rw [hg]
        show scoreDoc query (generateSimpleEmbedding query) x.1 = _
        rw [hxp]
        unfold scoreDoc
        rw [he]
      rw [← hscore, ← hxg]
      exact hxt

end Rag

namespace Rag

theorem c3_search_documents_witness :
    (∀ p ∈ (RAGStore.mk
        [("doc_1", Document.mk "doc_1" "A" "hello"
          (some (generateSimpleEmbedding "hello")) (some ⟨none, none, some 5, some 5⟩))]
        ⟨1000, 1000, 200, 1 / 2, 5⟩).documents, (p.2).embedding.isSome = true) ∧
    ((("hi" : String).data.all Char.isWhitespace = true →
      searchDocuments (RAGStore.mk
        [("doc_1", Document.mk "doc_1" "A" "hello"
          (some (generateSimpleEmbedding "hello")) (some ⟨none, none, some 5, some 5⟩))]
        ⟨1000, 1000, 200, 1 / 2, 5⟩) "hi" = []) ∧
    (searchDocuments (RAGStore.mk
        [("doc_1", Document.mk "doc_1" "A" "hello"
          (some (generateSimpleEmbedding "hello")) (some ⟨none, none, some 5, some 5⟩))]
        ⟨1000, 1000, 200, 1 / 2, 5⟩) "hi").length ≤
      (RAGStore.mk
        [("doc_1", Document.mk "doc_1" "A" "hello"
          (some (generateSimpleEmbedding "hello")) (some ⟨none, none, some 5, some 5⟩))]
        ⟨1000, 1000, 200, 1 / 2, 5⟩).config.maxRetrievedDocs ∧
    (searchDocuments (RAGStore.mk
        [("doc_1", Document.mk "doc_1" "A" "hello"
          (some (generateSimpleEmbedding "hello")) (some ⟨none, none, some 5, some 5⟩))]
        ⟨1000, 1000, 200, 1 / 2, 5⟩) "hi").Pairwise
      (fun d1 d2 => scoreDoc "hi" (generateSimpleEmbedding "hi") d2 ≤
        scoreDoc "hi" (generateSimpleEmbedding "hi") d1) ∧
    (∀ d ∈ searchDocuments (RAGStore.mk
        [("doc_1", Document.mk "doc_1" "A" "hello"
          (some (generateSimpleEmbedding "hello")) (some ⟨none, none, some 5, some 5⟩))]
        ⟨1000, 1000, 200, 1 / 2, 5⟩) "hi", ∃ e, d.embedding = some e ∧
      (RAGStore.mk
        [("doc_1", Document.mk "doc_1" "A" "hello"
          (some (generateSimpleEmbedding "hello")) (some ⟨none, none, some 5, some 5⟩))]
        ⟨1000, 1000, 200, 1 / 2, 5⟩).config.similarityThreshold ≤
        cosineSimilarity (generateSimpleEmbedding "hi") e)) :=
  ⟨fun p hp => by rcases List.mem_singleton.mp hp with rfl; rfl,
   c3_search_documents
     (RAGStore.mk
       [("doc_1", Document.mk "doc_1" "A" "hello"
         (some (generateSimpleEmbedding "hello")) (some ⟨none, none, some 5, some 5⟩))]
       ⟨1000, 1000, 200, 1 / 2, 5⟩) "hi"
     (fun p hp => by rcases List.mem_singleton.mp hp with rfl; rfl)⟩

end Rag

namespace Rag

theorem addDocument_documents (s : RAGStore) (title content : String)
    (md : Option Metadata) (id : String) (now : Nat) :
    (addDocument s title content md id now).documents =
      if s.config.maxDocuments <
          (mapSet s.documents id (mkDocument title content md id now)).length
      then evictOldest (mapSet s.documents id (mkDocument title content md id now))
      else mapSet s.documents id (mkDocument title content md id now) := rfl

theorem addDocument_config (s : RAGStore) (title content : String)
    (md : Option Metadata) (id : String) (now : Nat) :
    (addDocument s title content md id now).config = s.config := rfl

theorem applyInsert_config (s : RAGStore) (r : InsertReq) :
    (applyInsert s r).config = s.config := rfl

theorem mapSet_of_not_mem (m : List (String × Document)) (k : String) (v : Document)
    (h : k ∉ m.map Prod.fst) : mapSet m k v = m ++ [(k, v)] := by
  unfold mapSet
  rw [if_neg]
  intro hany
  obtain ⟨p, hp, hpk⟩ := List.any_eq_true.mp hany
  exact h (beq_iff_eq.mp hpk ▸ List.mem_map_of_mem Prod.fst hp)

theorem mapSet_length_le (m : List (String × Document)) (k : String) (v : Document) :
    (mapSet m k v).length ≤ m.length + 1 := by
  unfold mapSet
  split
  · rw [List.length_map]
    exact Nat.le_succ _
  · rw [List.length_append]
    exact Nat.le_refl _

theorem mergeSort_tsKey_sorted (m : List (String × Document)) :
    (m.mergeSort (fun a b => decide (tsKey a.2 ≤ tsKey b.2))).Pairwise
      (fun a b : String × Document => tsKey a.2 ≤ tsKey b.2) := by
  have h := @List.sorted_mergeSort (String × Document)
    (fun a b : String × Document => decide (tsKey a.2 ≤ tsKey b.2))
    (fun a b c hab hbc => by
      rw [decide_eq_true_eq] at *
      exact le_trans hab hbc)
    (fun a b => by
      rcases le_total (tsKey a.2) (tsKey b.2) with h | h <;> simp [h])
    m
  exact h.imp (fun hab => of_decide_eq_true hab)

theorem eq_of_keys_nodup (m : List (String × Document))
    (h : (m.map Prod.fst).Nodup) :
    ∀ a ∈ m, ∀ b ∈ m, a.1 = b.1 → a = b := by
  induction m with
  | nil => intro a ha; cases ha
  | cons p rest ih =>
    rw [List.map_cons, List.nodup_cons] at h
    intro a ha b hb hab
    rcases List.mem_cons.mp ha with rfl | ha' <;>
      rcases List.mem_cons.mp hb with rfl | hb'
    · rfl
    · exact absurd (hab ▸ List.mem_map_of_mem Prod.fst hb') h.1
    · exact absurd (hab ▸ List.mem_map_of_mem Prod.fst ha') h.1
    · exact ih h.2 a ha' b hb' hab

theorem evictOldest_length (m : List (String × Document)) (hne : m ≠ []) :
    (evictOldest m).length = m.length - 1 := by
  unfold evictOldest
  cases hs : m.mergeSort (fun a b => decide (tsKey a.2 ≤ tsKey b.2)) with
  | nil =>
    have hperm := List.mergeSort_perm m (fun a b => decide (tsKey a.2 ≤ tsKey b.2))
    rw [hs] at hperm
    exact absurd hperm.symm.eq_nil hne
  | cons p rest =>
    have hperm := List.mergeSort_perm m (fun a b => decide (tsKey a.2 ≤ tsKey b.2))
    have hpm : p ∈ m := hperm.mem_iff.mp (hs ▸ List.mem_cons_self p rest)
    apply List.length_eraseP_of_mem hpm
    exact beq_iff_eq.mpr rfl

theorem evictOldest_spec (m : List (String × Document)) (hne : m ≠ [])
    (hnd : (m.map Prod.fst).Nodup) :
    ∃ ev l1 l2, m = l1 ++ ev :: l2 ∧ evictOldest m = l1 ++ l2 ∧
      ∀ q ∈ m, tsKey ev.2 ≤ tsKey q.2 := by
  cases hs : m.mergeSort (fun a b => decide (tsKey a.2 ≤ tsKey b.2)) with
  | nil =>
    have hperm := List.mergeSort_perm m (fun a b => decide (tsKey a.2 ≤ tsKey b.2))
    rw [hs] at hperm
    exact absurd hperm.symm.eq_nil hne
  | cons p rest =>
    have hperm := List.mergeSort_perm m (fun a b => decide (tsKey a.2 ≤ tsKey b.2))
    have hpm : p ∈ m := hperm.mem_iff.mp (hs ▸ List.mem_cons_self p rest)
    have hmin : ∀ q ∈ m, tsKey p.2 ≤ tsKey q.2 := by
      intro q hq
      have hq' : q ∈ p :: rest := hs ▸ hperm.mem_iff.mpr hq
      rcases List.mem_cons.mp hq' with rfl | hq''
      · exact Nat.le_refl _
      · have hsorted := mergeSort_tsKey_sorted m
        rw [hs] at hsorted
        exact (List.pairwise_cons.mp hsorted).1 q hq''
    have herase : evictOldest m = m.eraseP (fun q => q.1 == p.1) := by
      unfold evictOldest
      rw [hs]
    obtain ⟨b, l1, l2, _, hb, hm, he⟩ :=
      @List.exists_of_eraseP (String × Document) (fun q => q.1 == p.1) m p hpm
        (beq_iff_eq.mpr rfl)
    have hbm : b ∈ m := hm ▸ List.mem_append_right l1 (List.mem_cons_self b l2)
    have hb' : b.1 = p.1 := by simpa using hb
    have hbp : b = p := eq_of_keys_nodup m hnd b hbm p hpm hb'
    exact ⟨b, l1, l2, hm, herase ▸ he, hbp ▸ hmin⟩

end Rag

namespace Rag

theorem addDocument_length_fresh (s : RAGStore) (title content : String)
    (md : Option Metadata) (id : String) (now : Nat)
    (hfresh : id ∉ s.documents.map Prod.fst) :
    (addDocument s title content md id now).documents.length =
      if s.config.maxDocuments < s.documents.length + 1 then s.documents.length
      else s.documents.length + 1 := by
  rw [addDocument_documents, mapSet_of_not_mem _ _ _ hfresh]
  have hlen : (s.documents ++ [(id, mkDocument title content md id now)]).length =
      s.documents.length + 1 := by simp
  rw [hlen]
  by_cases h : s.config.maxDocuments < s.documents.length + 1
  · rw [if_pos h, if_pos h, evictOldest_length _ (by simp), hlen]
    omega
  · rw [if_neg h, if_neg h, hlen]

theorem addDocument_length_le (s : RAGStore) (title content : String)
    (md : Option Metadata) (id : String) (now : Nat)
    (hM : 1 ≤ s.config.maxDocuments)
    (hle : s.documents.length ≤ s.config.maxDocuments) :
    (addDocument s title content md id now).documents.length ≤
      s.config.maxDocuments := by
  rw [addDocument_documents]
  have h2 := mapSet_length_le s.documents id (mkDocument title content md id now)
  by_cases h : s.config.maxDocuments <
      (mapSet s.documents id (mkDocument title content md id now)).length
  · rw [if_pos h, evictOldest_length _ (List.length_pos.mp (by omega))]
    omega
  · rw [if_neg h]
    omega

theorem mapSet_keys_subset (m : List (String × Document)) (k : String) (v : Document) :
    ∀ x ∈ (mapSet m k v).map Prod.fst, x ∈ k :: m.map Prod.fst := by
  unfold mapSet
  split
  · intro x hx
    rw [List.map_map] at hx
    obtain ⟨q, hq, hqx⟩ := List.mem_map.mp hx
    by_cases hqk : (q.1 == k) = true
    · simp only [Function.comp, if_pos hqk] at hqx
      exact hqx ▸ List.mem_cons_self _ _
    · simp only [Function.comp, if_neg hqk] at hqx
      exact hqx ▸ List.mem_cons_of_mem _ (List.mem_map_of_mem Prod.fst hq)
  · intro x hx
    rw [List.map_append] at hx
    rcases List.mem_append.mp hx with h | h
    · exact List.mem_cons_of_mem _ h
    · have : x = k := by simpa using h
      exact this ▸ List.mem_cons_self _ _

theorem addDocument_keys_subset (s : RAGStore) (title content : String)
    (md : Option Metadata) (id : String) (now : Nat) :
    ∀ x ∈ (addDocument s title content md id now).documents.map Prod.fst,
      x ∈ id :: s.documents.map Prod.fst := by
  intro x hx
  obtain ⟨q, hq, rfl⟩ := List.mem_map.mp hx
  exact mapSet_keys_subset s.documents id (mkDocument title content md id now) _
    (List.mem_map_of_mem Prod.fst (addDocument_mem_mapSet s title content md id now q hq))

theorem addDocument_keys_nodup (s : RAGStore) (title content : String)
    (md : Option Metadata) (id : String) (now : Nat)
    (hfresh : id ∉ s.documents.map Prod.fst)
    (hnd : (s.documents.map Prod.fst).Nodup) :
    ((addDocument s title content md id now).documents.map Prod.fst).Nodup := by
  have hnd2 : ((s.documents ++ [(id, mkDocument title content md id now)]).map
      Prod.fst).Nodup := by
    rw [List.map_append]
    refine List.Nodup.append hnd (List.nodup_singleton id) ?_
    intro x hx1 hx2
    have : x = id := by simpa using hx2
    exact hfresh (this ▸ hx1)
  rw [addDocument_documents, mapSet_of_not_mem _ _ _ hfresh]
  split
  · exact List.Nodup.sublist (List.Sublist.map Prod.fst (evictOldest_sublist _)) hnd2
  · exact hnd2

theorem insertAll_length_le (cfg : RAGConfig) (hM : 1 ≤ cfg.maxDocuments) :
    ∀ (reqs : List InsertReq) (s : RAGStore), s.config = cfg →
      s.documents.length ≤ cfg.maxDocuments →
      (insertAll s reqs).documents.length ≤ cfg.maxDocuments := by
  intro reqs
  induction reqs with
  | nil => intro s _ h; exact h
  | cons r rs ih =>
    intro s hcfg hle
    show (insertAll (applyInsert s r) rs).documents.length ≤ cfg.maxDocuments
    apply ih
    · rw [applyInsert_config, hcfg]
    · have h := addDocument_length_le s r.title r.content r.metadata r.id r.now
        (hcfg ▸ hM) (hcfg ▸ hle)
      rw [hcfg] at h
      exact h

theorem insertAll_length_eq (cfg : RAGConfig) (_hM : 1 ≤ cfg.maxDocuments) :
    ∀ (reqs : List InsertReq) (s : RAGStore), s.config = cfg →
      s.documents.length ≤ cfg.maxDocuments →
      (s.documents.map Prod.fst).Nodup →
      (∀ r ∈ reqs, r.id ∉ s.documents.map Prod.fst) →
      (reqs.map InsertReq.id).Nodup →
      (insertAll s reqs).documents.length =
        min (s.documents.length + reqs.length) cfg.maxDocuments := by
  intro reqs
  induction reqs with
  | nil =>
    intro s _ hle _ _ _
    show s.documents.length = min (s.documents.length + 0) cfg.maxDocuments
    omega
  | cons r rs ih =>
    intro s hcfg hle hnd hdisj hids
    have hfresh : r.id ∉ s.documents.map Prod.fst := hdisj r (List.mem_cons_self r rs)
    have hlen' : (applyInsert s r).documents.length =
        min (s.documents.length + 1) cfg.maxDocuments := by
      have h := addDocument_length_fresh s r.title r.content r.metadata r.id r.now hfresh
      rw [hcfg] at h
      show (addDocument s r.title r.content r.metadata r.id r.now).documents.length = _
      rw [h]
      split <;> omega
    rw [List.map_cons] at hids
    have hids' := List.nodup_cons.mp hids
    have hih := ih (applyInsert s r)
      (by rw [applyInsert_config, hcfg])
      (by rw [hlen']; omega)
      (addDocument_keys_nodup s r.title r.content r.metadata r.id r.now hfresh hnd)
      (by
        intro r' hr' hmem
        rcases List.mem_cons.mp
            (addDocument_keys_subset s r.title r.content r.metadata r.id r.now _ hmem)
          with heq | hmem'
        · exact hids'.1 (heq ▸ List.mem_map_of_mem InsertReq.id hr')
        · exact hdisj r' (List.mem_cons_of_mem r hr') hmem')
      hids'.2
    show (insertAll (applyInsert s r) rs).documents.length = _
    rw [hih, hlen']
    have hlc : (r :: rs).length = rs.length + 1 := rfl
    rw [hlc]
    omega

end Rag

namespace Rag

/-- C1: for a store configured with `maxDocuments = M ≥ 1`: (a) after any
sequence of `addDocument` calls starting from the empty store, at most `M`
documents are present; (b) inserting `M + 1` documents with distinct ids
leaves exactly `M` present; (c) an insertion into a store at capacity
removes exactly one entry from the post-insert map — an entry whose
`metadata.timestamp` (defaulting to 0) is minimal among all entries,
selected deterministically by the stable sort. -/
theorem c1_capacity_eviction (cfg : RAGConfig) (hM : 1 ≤ cfg.maxDocuments) :
    (∀ reqs : List InsertReq,
      (insertAll (emptyStore cfg) reqs).documents.length ≤ cfg.maxDocuments) ∧
    (∀ reqs : List InsertReq, (reqs.map InsertReq.id).Nodup →
      reqs.length = cfg.maxDocuments + 1 →
      (insertAll (emptyStore cfg) reqs).documents.length = cfg.maxDocuments) ∧
    (∀ (s : RAGStore) (title content : String) (md : Option Metadata)
      (id : String) (now : Nat), s.config = cfg →
      s.documents.length = cfg.maxDocuments →
      id ∉ s.documents.map Prod.fst →
      (s.documents.map Prod.fst).Nodup →
      (addDocument s title content md id now).documents.length = cfg.maxDocuments ∧
      ∃ ev l1 l2,
        mapSet s.documents id (mkDocument title content md id now) = l1 ++ ev :: l2 ∧
        (addDocument s title content md id now).documents = l1 ++ l2 ∧
        ∀ q ∈ mapSet s.documents id (mkDocument title content md id now),
          tsKey ev.2 ≤ tsKey q.2) := by
  refine ⟨fun reqs => insertAll_length_le cfg hM reqs (emptyStore cfg) rfl
      (by simp [emptyStore]), fun reqs hids hlen => ?_, ?_⟩
  · have h := insertAll_length_eq cfg hM reqs (emptyStore cfg) rfl
      (by simp [emptyStore])
      (by simp [emptyStore])
      (by intro r _ hmem; simp [emptyStore] at hmem)
      hids
    rw [h, hlen]
    show min (([] : List (String × Document)).length + (cfg.maxDocuments + 1))
      cfg.maxDocuments = cfg.maxDocuments
    simp
  · intro s title content md id now hcfg hlen hfresh hnd
    have hlenA := addDocument_length_fresh s title content md id now hfresh
    rw [hcfg, hlen, if_pos (Nat.lt_succ_self _)] at hlenA
    refine ⟨hlenA, ?_⟩
    have hmapset : mapSet s.documents id (mkDocument title content md id now) =
        s.documents ++ [(id, mkDocument title content md id now)] :=
      mapSet_of_not_mem _ _ _ hfresh
    have hne : mapSet s.documents id (mkDocument title content md id now) ≠ [] := by
      rw [hmapset]
      simp
    have hndm : ((mapSet s.documents id
        (mkDocument title content md id now)).map Prod.fst).Nodup := by
      rw [hmapset, List.map_append]
      refine List.Nodup.append hnd (List.nodup_singleton id) ?_
      intro x hx1 hx2
      have : x = id := by simpa using hx2
      exact hfresh (this ▸ hx1)
    have hcond : s.config.maxDocuments <
        (mapSet s.documents id (mkDocument title content md id now)).length := by
      rw [hmapset, List.length_append, hcfg, hlen]
      simp
    have hdocs : (addDocument s title content md id now).documents =
        evictOldest (mapSet s.documents id (mkDocument title content md id now)) := by
      rw [addDocument_documents, if_pos hcond]
    obtain ⟨ev, l1, l2, hm, he, hmin⟩ := evictOldest_spec _ hne hndm
    exact ⟨ev, l1, l2, hm, by rw [hdocs, he], hmin⟩

end Rag

namespace Rag

theorem c1_capacity_eviction_witness :
    1 ≤ (⟨1, 1000, 200, 1 / 2, 5⟩ : RAGConfig).maxDocuments ∧
    ((∀ reqs : List InsertReq,
      (insertAll (emptyStore ⟨1, 1000, 200, 1 / 2, 5⟩) reqs).documents.length ≤
        (⟨1, 1000, 200, 1 / 2, 5⟩ : RAGConfig).maxDocuments) ∧
    (∀ reqs : List InsertReq, (reqs.map InsertReq.id).Nodup →
      reqs.length = (⟨1, 1000, 200, 1 / 2, 5⟩ : RAGConfig).maxDocuments + 1 →
      (insertAll (emptyStore ⟨1, 1000, 200, 1 / 2, 5⟩) reqs).documents.length =
        (⟨1, 1000, 200, 1 / 2, 5⟩ : RAGConfig).maxDocuments) ∧
    (∀ (s : RAGStore) (title content : String) (md : Option Metadata)
      (id : String) (now : Nat), s.config = ⟨1, 1000, 200, 1 / 2, 5⟩ →
      s.documents.length = (⟨1, 1000, 200, 1 / 2, 5⟩ : RAGConfig).maxDocuments →
      id ∉ s.documents.map Prod.fst →
      (s.documents.map Prod.fst).Nodup →
      (addDocument s title content md id now).documents.length =
        (⟨1, 1000, 200, 1 / 2, 5⟩ : RAGConfig).maxDocuments ∧
      ∃ ev l1 l2,
        mapSet s.documents id (mkDocument title content md id now) = l1 ++ ev :: l2 ∧
        (addDocument s title content md id now).documents = l1 ++ l2 ∧
        ∀ q ∈ mapSet s.documents id (mkDocument title content md id now),
          tsKey ev.2 ≤ tsKey q.2)) :=
  ⟨by decide, c1_capacity_eviction ⟨1, 1000, 200, 1 / 2, 5⟩ (by decide)⟩

end Rag
